import Mathlib

/-!
Shallow embedding of the microdata-tools validation engine
(`src/microdata_tools/validation/steps/dataset_validator.py` and
`src/microdata_tools/validation/steps/data_reader.py`).

A pyarrow table is modelled as a `List Row`; a nullable column cell is an
`Option` value.  A pyarrow filter expression such as
`dataset.field("value").is_null() | (dataset.field("value") == "")` becomes a
boolean predicate on rows, with pyarrow null semantics made explicit: a
comparison with a null operand evaluates to null, and rows whose filter value
is null are dropped by `to_table(filter=...)`, i.e. they behave as `false`.
A Python function that raises is modelled with `Except` (the raised exception
is the `error` case) or with `Option` (`none` means an exception was raised).
-/

namespace Microdata

/-- One row of the canonical columnar table produced by the normalizer
(`sanitize_data`): `unit_id`, `value`, `start_epoch_days`, `stop_epoch_days`.
The `start_year` and `attributes` columns are never read by any validation
rule and are omitted.  The measure `value` is kept at `Option String`
granularity: the rules only ever test it for null, empty string, or
membership in a code list. -/
structure Row where
  unit_id : Option String
  value : Option String
  start_epoch_days : Option Int
  stop_epoch_days : Option Int
deriving DecidableEq, Repr

/-- A raised validation failure: the message of the exception plus the
offending identifiers structurally attached to it (the `errors` list of a
`ValidationError`; a plain `ValueError` attaches none). -/
structure Failure where
  message : String
  identifiers : List String
deriving DecidableEq, Repr

/-- One entry of a code list or sentinel list; the rules only read the
`code` field. -/
structure CodeItem where
  code : String
  description : String
deriving DecidableEq, Repr

/-- pyarrow `field("c") == scalar` inside a filter, for integer columns: a
null operand makes the comparison null, and the filter then drops the row,
so it acts as `false`. -/
def pyEqInt (a b : Option Int) : Bool :=
  match a, b with
  | some x, some y => x == y
  | _, _ => false

/-- pyarrow `field("a") != field("b")` inside a filter: null operands make
the comparison null, which the filter treats as not selected. -/
def pyNeInt (a b : Option Int) : Bool :=
  match a, b with
  | some x, some y => x != y
  | _, _ => false

/-- pyarrow `field("a") >= field("b")` inside a filter: null operands make
the comparison null, which the filter treats as not selected. -/
def pyGeInt (a b : Option Int) : Bool :=
  match a, b with
  | some x, some y => decide (x ≥ y)
  | _, _ => false

/-- pyarrow `field("c") == scalar` inside a filter, for string columns. -/
def pyEqStr (a b : Option String) : Bool :=
  match a, b with
  | some x, some y => x == y
  | _, _ => false

/-- Embeds `_format_error_message`: the human-readable message together with
the first 5 offending `unit_id` cells (`invalid_rows.column("unit_id").slice(0, 5)`).
This helper is defined in the source but never called by any check. -/
def formatErrorMessage (invalid_unit_ids : List (Option String)) (message : String) :
    Failure :=
  { message := message,
    identifiers := (invalid_unit_ids.take 5).map (fun o => o.getD "None") }

/-- Embeds `valid_unit_id_check`: select the rows whose `unit_id` is null or
the empty string and raise `ValueError("valid_unit_id_column_check")` when any
exist. -/
def valid_unit_id_check (t : List Row) : Except Failure Unit :=
  let invalid_rows := t.filter (fun r => r.unit_id.isNone || r.unit_id == some "")
  if invalid_rows.length > 0 then
    .error { message := "valid_unit_id_column_check", identifiers := [] }
  else .ok ()

/-- Embeds `valid_value_column_check`.  First stage: select rows whose
`value` is null (or, for `STRING`, also the empty string) and raise when any
exist.  Second stage, guarded by Python truthiness of `code_list` (skipped
when it is `None` or the empty list): build `unique_codes` from the code list
plus, when `sentinel_list is not None`, the sentinel list (the `list(set(..))`
deduplication in the source does not change membership and is omitted), then
select rows whose value is not in `unique_codes` and raise when any exist.
The `~isin` filter is null for a null value, so such rows are not selected. -/
def valid_value_column_check (t : List Row) (data_type : String)
    (code_list : Option (List CodeItem)) (sentinel_list : Option (List CodeItem)) :
    Except Failure Unit :=
  let invalid_rows := t.filter (fun r =>
    if data_type = "STRING" then r.value.isNone || r.value == some ""
    else r.value.isNone)
  if invalid_rows.length > 0 then
    .error { message := "valid_value_column_check", identifiers := [] }
  else
    match code_list with
    | some (item :: items) =>
      let unique_codes := ((item :: items).map CodeItem.code) ++
        (match sentinel_list with
         | some sentinels => sentinels.map CodeItem.code
         | none => [])
      let invalid_code_rows := t.filter (fun r =>
        match r.value with
        | some v => !(unique_codes.contains v)
        | none => false)
      if invalid_code_rows.length > 0 then
        .error { message := "invalid code list rows", identifiers := [] }
      else .ok ()
    | _ => .ok ()

/-- Embeds `fixed_temporal_variables_check`: a row is invalid when
`start_epoch_days` is non-null or `stop_epoch_days` is null.  The source
reuses the message string `valid_unit_id_column_check` here. -/
def fixed_temporal_variables_check (t : List Row) : Except Failure Unit :=
  let invalid_rows := t.filter (fun r =>
    r.start_epoch_days.isSome || r.stop_epoch_days.isNone)
  if invalid_rows.length > 0 then
    .error { message := "valid_unit_id_column_check", identifiers := [] }
  else .ok ()

/-- Embeds `status_temporal_variables_check`: first raise if any row has a
null `start_epoch_days` or `stop_epoch_days`; then raise if any row has
`start_epoch_days != stop_epoch_days` (a null-operand comparison is null and
the row is then not selected by the second filter). -/
def status_temporal_variables_check (t : List Row) : Except Failure Unit :=
  let invalid_null_rows := t.filter (fun r =>
    r.stop_epoch_days.isNone || r.start_epoch_days.isNone)
  if invalid_null_rows.length > 0 then
    .error
      ⟨"No row can have an empty start or stop column with temporalityType: STATUS", []⟩
  else
    let invalid_neq_rows := t.filter (fun r =>
      pyNeInt r.start_epoch_days r.stop_epoch_days)
    if invalid_neq_rows.length > 0 then
      .error { message := "start did not equal stop", identifiers := [] }
    else .ok ()

/-- Embeds `event_temporal_variables_check`: a row is selected as invalid when
`start_epoch_days` is null, or `start_epoch_days >= stop_epoch_days` (which
pyarrow evaluates to null, hence not selected, when `stop_epoch_days` is
null).  The message of the raised error also interpolates the repr of the
invalid table; only the fixed prefix is modelled. -/
def event_temporal_variables_check (t : List Row) : Except Failure Unit :=
  let invalid_rows := t.filter (fun r =>
    r.start_epoch_days.isNone || pyGeInt r.start_epoch_days r.stop_epoch_days)
  if invalid_rows.length > 0 then
    .error { message := "valid_event_temporal_columns_check", identifiers := [] }
  else .ok ()

/-- Embeds `accumulated_temporal_variables_check`: a row is invalid when
`start_epoch_days` is null, `stop_epoch_days` is null, or
`start_epoch_days >= stop_epoch_days`. -/
def accumulated_temporal_variables_check (t : List Row) : Except Failure Unit :=
  let invalid_rows := t.filter (fun r =>
    r.start_epoch_days.isNone || r.stop_epoch_days.isNone ||
      pyGeInt r.start_epoch_days r.stop_epoch_days)
  if invalid_rows.length > 0 then
    .error { message := "valid_accumulated_temporal_columns_check", identifiers := [] }
  else .ok ()

/-- Embeds pyarrow `compute.unique`: the distinct values of a column in order
of first appearance (null counts as one distinct value). -/
def uniqueFirst {α : Type} [DecidableEq α] : List α → List α
  | [] => []
  | a :: l => a :: uniqueFirst (l.filter (fun x => x ≠ a))
termination_by l => l.length
decreasing_by
  simp only [List.length_cons]
  exact Nat.lt_succ_of_le (List.length_filter_le _ _)

/-- pyarrow `utf8_slice_codeunits(ids, start=0, stop=1)`: the first character
of each identifier, propagating null. -/
def bucketOf (o : Option String) : Option String := o.map (fun s => s.take 1)

/-- Embeds `only_unique_identifiers_check`: bucket the identifiers by first
character; for every distinct bucket value, compare the distinct-identifier
count of the bucket with its row count.  The bucket filter
`field("bucket") == unique_bucket` has pyarrow null semantics: when the
bucket value is null (null identifiers) the comparison is null and no row is
selected.  The source loops and raises at the first mismatching bucket; since
the raised error is a fixed `ValueError("identifier diff")`, this is the same
as raising when not all buckets match. -/
def only_unique_identifiers_check (t : List Row) : Except Failure Unit :=
  let ids := t.map Row.unit_id
  let unique_buckets := uniqueFirst (ids.map bucketOf)
  if unique_buckets.all (fun b =>
      let bucket_ids := ids.filter (fun i => pyEqStr (bucketOf i) b)
      (uniqueFirst bucket_ids).length == bucket_ids.length)
  then .ok ()
  else .error { message := "identifier diff", identifiers := [] }

/-- Embeds `status_uniquesness_check`: for every distinct `start_epoch_days`
value, the rows sharing it must have pairwise distinct identifiers.  The
per-date filter `field("start_epoch_days") == status_date` has pyarrow null
semantics: a null date selects no rows. -/
def status_uniquesness_check (t : List Row) : Except Failure Unit :=
  let unique_status_dates := uniqueFirst (t.map Row.start_epoch_days)
  if unique_status_dates.all (fun d =>
      let status_ids := (t.filter (fun r => pyEqInt r.start_epoch_days d)).map Row.unit_id
      (uniqueFirst status_ids).length == status_ids.length)
  then .ok ()
  else .error { message := "status uniqueness fail", identifiers := [] }

/-- Embeds the inner `find_overlap` of `no_overlapping_timespans_check`: scan
`i` over the non-final positions of `start_list`; report an overlap when
`stop_list[i]` is null or `stop_list[i] > start_list[i + 1]`.  Python raises
`TypeError` when an int is compared with `None` (`start_list[i + 1]` null),
modelled as `Except.error`.  The two lists always have equal length at the
call sites (parallel per-identifier column lists). -/
def find_overlap : List (Option Int) → List (Option Int) → Except String Bool
  | _ :: s1 :: srest, stop0 :: stoprest =>
    match stop0 with
    | none => .ok true
    | some v =>
      match s1 with
      | none => .error "TypeError"
      | some s =>
        if v > s then .ok true
        else find_overlap (s1 :: srest) stoprest
  | _, _ => .ok false

/-- Ordering used by `sort_by([("start_epoch_days", "ascending")])`:
ascending with nulls placed at the end (the pyarrow default
`null_placement="at_end"`). -/
def startLeB (a b : Option Int) : Bool :=
  match a, b with
  | some x, some y => decide (x ≤ y)
  | some _, none => true
  | none, some _ => false
  | none, none => true

/-- Row ordering for the batched overlap check sort. -/
def rowStartLe (a b : Row) : Prop :=
  startLeB a.start_epoch_days b.start_epoch_days = true

instance : DecidableRel rowStartLe :=
  fun a b => inferInstanceAs (Decidable (_ = true))

instance : IsTotal Row rowStartLe where
  total a b := by
    unfold rowStartLe startLeB
    cases a.start_epoch_days <;> cases b.start_epoch_days <;> simp <;> omega

instance : IsTrans Row rowStartLe where
  trans a b c := by
    unfold rowStartLe startLeB
    cases a.start_epoch_days <;> cases b.start_epoch_days <;>
      cases c.start_epoch_days <;> simp <;> omega

/-- Embeds `identifier_time_spans.sort_by([("start_epoch_days", "ascending")])`.
pyarrow `sort_indices` computes a stable sort, so a stable insertion sort is
the faithful model. -/
def sortByStart (l : List Row) : List Row := List.insertionSort rowStartLe l

/-- The rows of one `group_by("unit_id")` group, in table order.  Grouping
(unlike a `==` filter) keys null identifiers as their own group, so plain
equality on the optional identifier is the faithful model. -/
def groupRows (sorted_rows : List Row) (uid : Option String) : List Row :=
  sorted_rows.filter (fun r => r.unit_id == uid)

/-- Scan the per-identifier groups of one (sorted) batch table in group
order, raising a `ValidationError` naming the identifier on the first group
whose time spans overlap. -/
def scanGroups (sorted_rows : List Row) : List (Option String) → Except Failure Unit
  | [] => .ok ()
  | uid :: rest =>
    match find_overlap ((groupRows sorted_rows uid).map Row.start_epoch_days)
        ((groupRows sorted_rows uid).map Row.stop_epoch_days) with
    | .error e => .error { message := e, identifiers := [] }
    | .ok true =>
      .error { message := "Found overlapping timespans for dataset",
               identifiers := [uid.getD "None"] }
    | .ok false => scanGroups sorted_rows rest

/-- Embeds the inner `batch` generator: consecutive chunks of the given size.
With size 0, Python `range(0, n, 0)` raises; callers always pass a positive
size, and the model returns no batches in that degenerate case. -/
def batchList {α : Type} : List α → Nat → List (List α)
  | [], _ => []
  | _ :: _, 0 => []
  | a :: l, bs + 1 =>
    (a :: l).take (bs + 1) :: batchList ((a :: l).drop (bs + 1)) (bs + 1)
termination_by l _ => l.length
decreasing_by
  simp only [List.length_drop, List.length_cons]
  omega

/-- The sorted table of one identifier batch: select the batch rows with
`isin` (whose set lookup matches null against null, so null identifiers are
selected for the batch that contains the null key), then sort by start. -/
def batchSorted (t : List Row) (b : List (Option String)) : List Row :=
  sortByStart (t.filter (fun r => b.contains r.unit_id))

/-- Process the identifier batches in order: build the sorted batch table,
group it by identifier and scan each group. -/
def runBatches (t : List Row) : List (List (Option String)) → Except Failure Unit
  | [] => .ok ()
  | b :: rest =>
    match scanGroups (batchSorted t b)
        (uniqueFirst ((batchSorted t b).map Row.unit_id)) with
    | .ok () => runBatches t rest
    | .error f => .error f

/-- Embeds `no_overlapping_timespans_check`, generalized over the batch size
(the source fixes it to 5000000). -/
def no_overlapping_timespans_check_batched (batch_size : Nat) (t : List Row) :
    Except Failure Unit :=
  runBatches t (batchList (uniqueFirst (t.map Row.unit_id)) batch_size)

/-- Embeds `no_overlapping_timespans_check` with the batch size of the
source. -/
def no_overlapping_timespans_check (t : List Row) : Except Failure Unit :=
  no_overlapping_timespans_check_batched 5000000 t

/-- Embeds `validate_dataset`: the fixed rule order with dispatch on the
temporality type (a Python `match` with no matching case falls through and
the function returns `None`).  A check that raises aborts the whole function,
modelled by explicit propagation of the `error` case. -/
def validate_dataset (t : List Row) (measure_data_type : String)
    (code_list sentinel_list : Option (List CodeItem)) (temporality_type : String) :
    Except Failure Unit :=
  match valid_unit_id_check t with
  | .error f => .error f
  | .ok () =>
    match valid_value_column_check t measure_data_type code_list sentinel_list with
    | .error f => .error f
    | .ok () =>
      if temporality_type = "FIXED" then
        match fixed_temporal_variables_check t with
        | .error f => .error f
        | .ok () => only_unique_identifiers_check t
      else if temporality_type = "STATUS" then
        match status_temporal_variables_check t with
        | .error f => .error f
        | .ok () => status_uniquesness_check t
      else if temporality_type = "ACCUMULATED" then
        match accumulated_temporal_variables_check t with
        | .error f => .error f
        | .ok () => no_overlapping_timespans_check t
      else if temporality_type = "EVENT" then
        match event_temporal_variables_check t with
        | .error f => .error f
        | .ok () => no_overlapping_timespans_check t
      else .ok ()

/-- Modelled from the spec (section 4.4): run an ordered list of rules
against the table, aborting at the first failing rule so that no later rule
executes after a failure. -/
def run_rules : List (List Row → Except Failure Unit) → List Row → Except Failure Unit
  | [], _ => .ok ()
  | rule :: rest, t =>
    match rule t with
    | .ok () => run_rules rest t
    | .error f => .error f

/-- Modelled from the spec (sections 2 and 4.4): the ordered rule list that
the dispatcher selects for a temporality type (identifier validity, then
value validity, then the temporality-specific temporal-field rule, then the
uniqueness or overlap check). -/
def rules_for (measure_data_type : String)
    (code_list sentinel_list : Option (List CodeItem)) (temporality_type : String) :
    List (List Row → Except Failure Unit) :=
  [valid_unit_id_check,
   fun t => valid_value_column_check t measure_data_type code_list sentinel_list] ++
  (if temporality_type = "FIXED" then
    [fixed_temporal_variables_check, only_unique_identifiers_check]
  else if temporality_type = "STATUS" then
    [status_temporal_variables_check, status_uniquesness_check]
  else if temporality_type = "ACCUMULATED" then
    [accumulated_temporal_variables_check, no_overlapping_timespans_check]
  else if temporality_type = "EVENT" then
    [event_temporal_variables_check, no_overlapping_timespans_check]
  else [])

/-- Scan for the unbatched per-identifier overlap check: for each distinct
identifier in order, sort the rows of that one identifier by start (stable)
and scan its adjacent interval pairs. -/
def scanGroupsUnbatched (t : List Row) : List (Option String) → Except Failure Unit
  | [] => .ok ()
  | uid :: rest =>
    match find_overlap ((sortByStart (groupRows t uid)).map Row.start_epoch_days)
        ((sortByStart (groupRows t uid)).map Row.stop_epoch_days) with
    | .error e => .error { message := e, identifiers := [] }
    | .ok true =>
      .error { message := "Found overlapping timespans for dataset",
               identifiers := [uid.getD "None"] }
    | .ok false => scanGroupsUnbatched t rest

/-- Modelled from the spec (section 4.6): the unbatched per-identifier
overlap check against which the batched implementation is compared. -/
def no_overlapping_timespans_unbatched (t : List Row) : Except Failure Unit :=
  scanGroupsUnbatched t (uniqueFirst (t.map Row.unit_id))

/-- Modelled from the spec (section 4.5): the single global uniqueness check,
count of distinct identifiers against total row count. -/
def global_unique_identifiers (t : List Row) : Bool :=
  (uniqueFirst (t.map Row.unit_id)).length == (t.map Row.unit_id).length

/-- A concrete STATUS table with six rows, all with a null
`start_epoch_days`, whose identifiers are u1 .. u6. -/
def badStatusTable : List Row :=
  [⟨some "u1", some "x", none, some 1⟩, ⟨some "u2", some "x", none, some 1⟩,
   ⟨some "u3", some "x", none, some 1⟩, ⟨some "u4", some "x", none, some 1⟩,
   ⟨some "u5", some "x", none, some 1⟩, ⟨some "u6", some "x", none, some 1⟩]

/-- A small table with two identifiers, one of which has overlapping
intervals. -/
def overlapTable : List Row :=
  [⟨some "A", some "x", some 10, some 20⟩,
   ⟨some "A", some "x", some 15, some 25⟩,
   ⟨some "B", some "x", some 1, some 2⟩]

/-- A proleptic Gregorian calendar date: the decoded form of
`datetime(1970, 1, 1) + timedelta(days=n)`. -/
structure Date where
  year : Int
  month : Int
  day : Int
deriving DecidableEq, Repr

/-- The Gregorian leap-year rule, as implemented by Python `datetime`. -/
def isLeap (y : Int) : Bool :=
  y % 4 == 0 && (y % 100 != 0 || y % 400 == 0)

/-- Number of days of a month in the proleptic Gregorian calendar. -/
def daysInMonth (y m : Int) : Int :=
  if m = 2 then (if isLeap y then 29 else 28)
  else if m = 4 ∨ m = 6 ∨ m = 9 ∨ m = 11 then 30
  else 31

/-- The calendar successor of a date. -/
def nextDate (d : Date) : Date :=
  if d.day < daysInMonth d.year d.month then ⟨d.year, d.month, d.day + 1⟩
  else if d.month < 12 then ⟨d.year, d.month + 1, 1⟩
  else ⟨d.year + 1, 1, 1⟩

/-- The calendar predecessor of a date. -/
def prevDate (d : Date) : Date :=
  if 1 < d.day then ⟨d.year, d.month, d.day - 1⟩
  else if 1 < d.month then ⟨d.year, d.month - 1, daysInMonth d.year (d.month - 1)⟩
  else ⟨d.year - 1, 12, 31⟩

/-- `datetime(1970, 1, 1) + timedelta(days=n)`: date arithmetic is stepping
the calendar one day at a time from the epoch date. -/
def decodeEpoch (n : Int) : Date :=
  if 0 ≤ n then nextDate^[n.toNat] ⟨1970, 1, 1⟩
  else prevDate^[(-n).toNat] ⟨1970, 1, 1⟩

/-- The decimal digit character of `n % 10`. -/
def decimalDigit (n : Nat) : Char :=
  match n % 10 with
  | 0 => '0' | 1 => '1' | 2 => '2' | 3 => '3' | 4 => '4'
  | 5 => '5' | 6 => '6' | 7 => '7' | 8 => '8' | _ => '9'

/-- `strftime("%Y-%m-%d")`: 4 year digits, 2 month digits, 2 day digits.
Every date this model decodes has a year in 1000..9999, where `%Y` prints
exactly the 4 decimal digits. -/
def formatDate (d : Date) : String :=
  ⟨[decimalDigit (d.year.toNat / 1000), decimalDigit (d.year.toNat / 100),
    decimalDigit (d.year.toNat / 10), decimalDigit d.year.toNat,
    '-',
    decimalDigit (d.month.toNat / 10), decimalDigit d.month.toNat,
    '-',
    decimalDigit (d.day.toNat / 10), decimalDigit d.day.toNat]⟩

/-- `(datetime(1970, 1, 1) + timedelta(days=n)).strftime("%Y-%m-%d")`. -/
def formatEpoch (n : Int) : String := formatDate (decodeEpoch n)

/-- pyarrow `compute.min_max` and `compute.max` skip nulls and return null on
an empty or all-null column. -/
def colMin (l : List (Option Int)) : Option Int := (l.filterMap id).min?

/-- See `colMin`. -/
def colMax (l : List (Option Int)) : Option Int := (l.filterMap id).max?

/-- Python `min([d for d in [a, b] if d is not None])`: `none` models the
`ValueError` raised when both entries are null. -/
def pyMinOfPair (a b : Option Int) : Option Int :=
  match a, b with
  | some x, some y => some (min x y)
  | some x, none => some x
  | none, some y => some y
  | none, none => none

/-- Python `max([d for d in [a, b] if d is not None])`, as `pyMinOfPair`. -/
def pyMaxOfPair (a b : Option Int) : Option Int :=
  match a, b with
  | some x, some y => some (max x y)
  | some x, none => some x
  | none, some y => some y
  | none, none => none

/-- The STATUS list comprehension
`[(datetime(1970,1,1) + timedelta(days=d)).strftime("%Y-%m-%d") for d in unique(start)]`:
decoding raises (`none`) as soon as a null entry is reached. -/
def decodeColumn : List (Option Int) → Option (List String)
  | [] => some []
  | none :: _ => none
  | some x :: rest =>
    match decodeColumn rest with
    | none => none
    | some l => some (formatEpoch x :: l)

/-- The dictionary built by `get_temporal_data`. -/
structure TemporalData where
  start : String
  latest : String
  statusDates : Option (List String)
deriving DecidableEq, Repr

/-- Embeds `get_temporal_data`.  For FIXED, the coverage start is the literal
1900-01-01 and the end is the decoded maximum stop (decoding a null maximum
raises, modelled by `none`).  Otherwise the coverage bounds are the min and
max over the non-null values of both epoch columns (`min([])` on two null
aggregates raises).  For STATUS, the distinct `start_epoch_days` values in
order of first appearance are additionally decoded (a null entry raises). -/
def get_temporal_data (t : List Row) (temporality_type : String) :
    Option TemporalData :=
  if temporality_type = "FIXED" then
    match colMax (t.map Row.stop_epoch_days) with
    | none => none
    | some stop_max => some ⟨"1900-01-01", formatEpoch stop_max, none⟩
  else
    match pyMinOfPair (colMin (t.map Row.start_epoch_days))
        (colMin (t.map Row.stop_epoch_days)),
      pyMaxOfPair (colMax (t.map Row.start_epoch_days))
        (colMax (t.map Row.stop_epoch_days)) with
    | some min_date, some max_date =>
      if temporality_type = "STATUS" then
        match decodeColumn (uniqueFirst (t.map Row.start_epoch_days)) with
        | none => none
        | some status_dates =>
          some ⟨formatEpoch min_date, formatEpoch max_date, some status_dates⟩
      else some ⟨formatEpoch min_date, formatEpoch max_date, none⟩
    | _, _ => none

/-- The part of the revision metadata written by
`metadata_update_temporal_coverage`. -/
structure DataRevision where
  temporalCoverageStart : String
  temporalCoverageLatest : String
  temporalStatusDates : Option (List String)
deriving DecidableEq, Repr

/-- Embeds `metadata_update_temporal_coverage`: copy coverage start and
latest; for STATUS, sort the status-date strings with Python `list.sort()`
(lexicographic by code point, a stable ascending sort) and store them. -/
def metadata_update_temporal_coverage (temporality_type : String)
    (temporal_data : TemporalData) : DataRevision :=
  { temporalCoverageStart := temporal_data.start,
    temporalCoverageLatest := temporal_data.latest,
    temporalStatusDates :=
      if temporality_type = "STATUS" then
        temporal_data.statusDates.map
          (fun l => List.insertionSort (fun a b : String => a ≤ b) l)
      else none }

/-- Calendar validity of a date. -/
def ValidDate (d : Date) : Prop :=
  1 ≤ d.month ∧ d.month ≤ 12 ∧ 1 ≤ d.day ∧ d.day ≤ daysInMonth d.year d.month

/-- Calendar (lexicographic) strict order on dates. -/
def dateLt (d e : Date) : Prop :=
  d.year < e.year ∨ (d.year = e.year ∧
    (d.month < e.month ∨ (d.month = e.month ∧ d.day < e.day)))

/-- Cumulative days before a month in a non-leap year. -/
def cumDays (m : Int) : Int :=
  if m = 1 then 0 else if m = 2 then 31 else if m = 3 then 59
  else if m = 4 then 90 else if m = 5 then 120 else if m = 6 then 151
  else if m = 7 then 181 else if m = 8 then 212 else if m = 9 then 243
  else if m = 10 then 273 else if m = 11 then 304 else 334

/-- Day count of a date (rata die style), the proof-side measure showing
that single-day stepping moves by exactly one. -/
def rataDie (d : Date) : Int :=
  365 * (d.year - 1) + (d.year - 1) / 4 - (d.year - 1) / 100 + (d.year - 1) / 400 +
    cumDays d.month + (if 2 < d.month ∧ isLeap d.year = true then 1 else 0) + d.day

@[simp] theorem except_isOk_error {ε α : Type} (e : ε) :
    (Except.error e : Except ε α).isOk = false := rfl

@[simp] theorem except_isOk_ok {ε α : Type} (a : α) :
    (Except.ok a : Except ε α).isOk = true := rfl

theorem length_filter_pos_iff {α : Type} (p : α → Bool) (l : List α) :
    0 < (l.filter p).length ↔ ∃ a ∈ l, p a = true := by
  rw [List.length_pos_iff_exists_mem]
  simp [List.mem_filter]

theorem one_stage_fails_iff (p : Row → Bool) (t : List Row) (f : Failure) :
    ((if (t.filter p).length > 0 then (.error f : Except Failure Unit)
      else .ok ()).isOk = false) ↔ ∃ r ∈ t, p r = true := by
  split_ifs with h1
  · simpa using (length_filter_pos_iff p t).mp h1
  · simp only [except_isOk_ok, Bool.true_eq_false, false_iff]
    intro hex
    exact h1 ((length_filter_pos_iff p t).mpr hex)

theorem two_stage_fails_iff (p1 p2 : Row → Bool) (t : List Row) (f1 f2 : Failure) :
    ((if (t.filter p1).length > 0 then (.error f1 : Except Failure Unit)
      else if (t.filter p2).length > 0 then .error f2
      else .ok ()).isOk = false) ↔ ∃ r ∈ t, (p1 r || p2 r) = true := by
  split_ifs with h1 h2
  · simp only [except_isOk_error, true_iff]
    obtain ⟨r, hr, hp⟩ := (length_filter_pos_iff p1 t).mp h1
    exact ⟨r, hr, by simp [hp]⟩
  · simp only [except_isOk_error, true_iff]
    obtain ⟨r, hr, hp⟩ := (length_filter_pos_iff p2 t).mp h2
    exact ⟨r, hr, by simp [hp]⟩
  · simp only [except_isOk_ok, Bool.true_eq_false, false_iff]
    rintro ⟨r, hr, hp⟩
    rcases Bool.or_eq_true_iff.mp hp with h | h
    · exact h1 ((length_filter_pos_iff p1 t).mpr ⟨r, hr, h⟩)
    · exact h2 ((length_filter_pos_iff p2 t).mpr ⟨r, hr, h⟩)

theorem check_ok_iff (p : Row → Bool) (t : List Row) (f : Failure) :
    ((if (t.filter p).length > 0 then (.error f : Except Failure Unit)
      else .ok ()) = .ok ()) ↔ ∀ r ∈ t, p r = false := by
  split_ifs with h1
  · simp only [reduceCtorEq, false_iff]
    obtain ⟨r, hr, hp⟩ := (length_filter_pos_iff p t).mp h1
    intro hall
    rw [hall r hr] at hp
    exact Bool.noConfusion hp
  · simp only [eq_self_iff_true, true_iff]
    intro r hr
    by_contra hc
    exact h1 ((length_filter_pos_iff p t).mpr ⟨r, hr, Bool.eq_true_of_ne_false hc⟩)

/-- Claim C8: the STATUS temporal-field check fails if and only if some row
has a null `start_epoch_days`, a null `stop_epoch_days`, or
`start_epoch_days` not equal to `stop_epoch_days`; equivalently, a table
where every row has both fields non-null and equal passes. -/
theorem status_temporal_check_fails_iff (t : List Row) :
    (status_temporal_variables_check t).isOk = false ↔
      ∃ r ∈ t, r.start_epoch_days = none ∨ r.stop_epoch_days = none ∨
        r.start_epoch_days ≠ r.stop_epoch_days := by
  unfold status_temporal_variables_check
  rw [two_stage_fails_iff]
  refine exists_congr fun r => and_congr_right fun _ => ?_
  cases hs : r.start_epoch_days <;> cases ht : r.stop_epoch_days <;>
    simp [pyNeInt, hs, ht]

/-- Claim C9: the EVENT temporal-field check fails if and only if some row
has a null `start_epoch_days`, or a non-null `stop_epoch_days` that is not
strictly greater than its non-null `start_epoch_days`; a row with non-null
start and null stop always passes. -/
theorem event_temporal_check_fails_iff (t : List Row) :
    (event_temporal_variables_check t).isOk = false ↔
      ∃ r ∈ t, r.start_epoch_days = none ∨
        ∃ v w, r.start_epoch_days = some v ∧ r.stop_epoch_days = some w ∧ w ≤ v := by
  unfold event_temporal_variables_check
  rw [one_stage_fails_iff]
  refine exists_congr fun r => and_congr_right fun _ => ?_
  cases hs : r.start_epoch_days <;> cases ht : r.stop_epoch_days <;>
    simp [pyGeInt, hs, ht]

/-- Claim C10: when `code_list` is `None` or the empty list, the value check
performs no code-membership check at all, even when a non-empty
`sentinel_list` is supplied: it passes exactly when every value is non-null
(and, for STRING, non-empty). -/
theorem value_check_ignores_sentinels_without_code_list (t : List Row)
    (data_type : String) (code_list sentinel_list : Option (List CodeItem))
    (h : code_list = none ∨ code_list = some []) :
    (valid_value_column_check t data_type code_list sentinel_list = .ok ()) ↔
      ∀ r ∈ t, r.value ≠ none ∧ (data_type = "STRING" → r.value ≠ some "") := by
  rcases h with h | h <;>
    · subst h
      unfold valid_value_column_check
      rw [check_ok_iff]
      refine forall₂_congr fun r _ => ?_
      by_cases hdt : data_type = "STRING" <;>
        cases hv : r.value <;> simp [hdt, hv]

/-- Witness for claim C10 at a concrete input: a table with a single
non-null, non-empty STRING value passes with no code list even though a
non-empty sentinel list is supplied. -/
theorem value_check_ignores_sentinels_witness :
    valid_value_column_check [⟨some "A", some "x", none, none⟩] "STRING" none
      (some [⟨"0", "sentinel zero"⟩]) = .ok () :=
  (value_check_ignores_sentinels_without_code_list
    [⟨some "A", some "x", none, none⟩] "STRING" none
    (some [⟨"0", "sentinel zero"⟩]) (Or.inl rfl)).mpr (by decide)

theorem run_rules_cons_ok {rule : List Row → Except Failure Unit}
    {rest : List (List Row → Except Failure Unit)} {t : List Row}
    (h : rule t = .ok ()) : run_rules (rule :: rest) t = run_rules rest t := by
  rw [run_rules, h]

theorem run_rules_cons_error {rule : List Row → Except Failure Unit}
    {rest : List (List Row → Except Failure Unit)} {t : List Row} {f : Failure}
    (h : rule t = .error f) : run_rules (rule :: rest) t = .error f := by
  rw [run_rules, h]

/-- Shared lemma: `validate_dataset` is exactly the short-circuiting run of
the ordered rule list for its temporality type. -/
theorem validate_eq_run_rules_aux (t : List Row) (mdt : String)
    (cl sl : Option (List CodeItem)) (tt : String) :
    validate_dataset t mdt cl sl tt = run_rules (rules_for mdt cl sl tt) t := by
  unfold validate_dataset rules_for
  simp only [List.cons_append, List.nil_append]
  cases h1 : valid_unit_id_check t with
  | error f => rw [run_rules_cons_error h1]
  | ok u =>
    cases u
    rw [run_rules_cons_ok h1]
    cases h2 : valid_value_column_check t mdt cl sl with
    | error f => rw [run_rules_cons_error h2]
    | ok u =>
      cases u
      rw [run_rules_cons_ok h2]
      split_ifs with hf hs ha he
      · cases h3 : fixed_temporal_variables_check t with
        | error f => rw [run_rules_cons_error h3]
        | ok u =>
          cases u
          rw [run_rules_cons_ok h3]
          cases h4 : only_unique_identifiers_check t with
          | error f => rw [run_rules_cons_error h4]
          | ok u => cases u; rw [run_rules_cons_ok h4]; rfl
      · cases h3 : status_temporal_variables_check t with
        | error f => rw [run_rules_cons_error h3]
        | ok u =>
          cases u
          rw [run_rules_cons_ok h3]
          cases h4 : status_uniquesness_check t with
          | error f => rw [run_rules_cons_error h4]
          | ok u => cases u; rw [run_rules_cons_ok h4]; rfl
      · cases h3 : accumulated_temporal_variables_check t with
        | error f => rw [run_rules_cons_error h3]
        | ok u =>
          cases u
          rw [run_rules_cons_ok h3]
          cases h4 : no_overlapping_timespans_check t with
          | error f => rw [run_rules_cons_error h4]
          | ok u => cases u; rw [run_rules_cons_ok h4]; rfl
      · cases h3 : event_temporal_variables_check t with
        | error f => rw [run_rules_cons_error h3]
        | ok u =>
          cases u
          rw [run_rules_cons_ok h3]
          cases h4 : no_overlapping_timespans_check t with
          | error f => rw [run_rules_cons_error h4]
          | ok u => cases u; rw [run_rules_cons_ok h4]; rfl
      · rfl

/-- Claim C5: `validate_dataset` evaluates the rules in the fixed order
identifier validity, value validity, temporality-specific temporal-field
rule, then the uniqueness or overlap check, and the first failing rule
aborts the run: it equals the short-circuiting `run_rules` over the ordered
`rules_for` list. -/
theorem validate_dataset_fixed_order_short_circuit (t : List Row) (mdt : String)
    (cl sl : Option (List CodeItem)) (tt : String) :
    validate_dataset t mdt cl sl tt = run_rules (rules_for mdt cl sl tt) t :=
  validate_eq_run_rules_aux t mdt cl sl tt

theorem error_eq_of_ite {c : Prop} [Decidable c] {f0 f : Failure}
    (h : (if c then (.error f0 : Except Failure Unit) else .ok ()) = .error f) :
    f = f0 := by
  split_ifs at h
  exact (Except.error.inj h).symm

theorem error_eq_of_ite_ok {c : Prop} [Decidable c] {f0 f : Failure}
    (h : (if c then (.ok () : Except Failure Unit) else .error f0) = .error f) :
    f = f0 := by
  split_ifs at h
  exact (Except.error.inj h).symm

theorem valid_unit_id_check_error {t : List Row} {f : Failure}
    (h : valid_unit_id_check t = .error f) : f.identifiers = [] := by
  unfold valid_unit_id_check at h
  rw [error_eq_of_ite h]

theorem valid_value_column_check_error {t : List Row} {dt : String}
    {cl sl : Option (List CodeItem)} {f : Failure}
    (h : valid_value_column_check t dt cl sl = .error f) : f.identifiers = [] := by
  unfold valid_value_column_check at h
  dsimp only at h
  split_ifs at h <;>
    first
      | rw [(Except.error.inj h).symm]
      | (cases cl with
          | none => exact Except.noConfusion h
          | some l =>
            cases l with
            | nil => exact Except.noConfusion h
            | cons item items =>
              dsimp only at h
              rw [error_eq_of_ite h])

theorem fixed_temporal_variables_check_error {t : List Row} {f : Failure}
    (h : fixed_temporal_variables_check t = .error f) : f.identifiers = [] := by
  unfold fixed_temporal_variables_check at h
  rw [error_eq_of_ite h]

theorem status_temporal_variables_check_error {t : List Row} {f : Failure}
    (h : status_temporal_variables_check t = .error f) : f.identifiers = [] := by
  unfold status_temporal_variables_check at h
  dsimp only at h
  split_ifs at h with h1 h2 <;> rw [(Except.error.inj h).symm]

theorem event_temporal_variables_check_error {t : List Row} {f : Failure}
    (h : event_temporal_variables_check t = .error f) : f.identifiers = [] := by
  unfold event_temporal_variables_check at h
  rw [error_eq_of_ite h]

theorem accumulated_temporal_variables_check_error {t : List Row} {f : Failure}
    (h : accumulated_temporal_variables_check t = .error f) : f.identifiers = [] := by
  unfold accumulated_temporal_variables_check at h
  rw [error_eq_of_ite h]

theorem only_unique_identifiers_check_error {t : List Row} {f : Failure}
    (h : only_unique_identifiers_check t = .error f) : f.identifiers = [] := by
  unfold only_unique_identifiers_check at h
  rw [error_eq_of_ite_ok h]

theorem status_uniquesness_check_error {t : List Row} {f : Failure}
    (h : status_uniquesness_check t = .error f) : f.identifiers = [] := by
  unfold status_uniquesness_check at h
  rw [error_eq_of_ite_ok h]

theorem scanGroups_error_len {sorted_rows : List Row} :
    ∀ {uids : List (Option String)} {f : Failure},
      scanGroups sorted_rows uids = .error f → f.identifiers.length ≤ 1 := by
  intro uids
  induction uids with
  | nil => intro f h; exact Except.noConfusion h
  | cons uid rest ih =>
    intro f h
    unfold scanGroups at h
    cases hfo : find_overlap ((groupRows sorted_rows uid).map Row.start_epoch_days)
        ((groupRows sorted_rows uid).map Row.stop_epoch_days) with
    | error e =>
      rw [hfo] at h
      rw [(Except.error.inj h).symm]
      simp
    | ok b =>
      rw [hfo] at h
      cases b with
      | true =>
        rw [(Except.error.inj h).symm]
        simp
      | false => exact ih h

theorem runBatches_error_len {t : List Row} :
    ∀ {bs : List (List (Option String))} {f : Failure},
      runBatches t bs = .error f → f.identifiers.length ≤ 1 := by
  intro bs
  induction bs with
  | nil => intro f h; exact Except.noConfusion h
  | cons b rest ih =>
    intro f h
    unfold runBatches at h
    cases hsg : scanGroups (batchSorted t b)
        (uniqueFirst ((batchSorted t b).map Row.unit_id)) with
    | error g =>
      rw [hsg] at h
      rw [(Except.error.inj h).symm]
      exact scanGroups_error_len hsg
    | ok u =>
      cases u
      rw [hsg] at h
      exact ih h

theorem no_overlapping_timespans_check_error {t : List Row} {f : Failure}
    (h : no_overlapping_timespans_check t = .error f) : f.identifiers.length ≤ 1 := by
  unfold no_overlapping_timespans_check no_overlapping_timespans_check_batched at h
  exact runBatches_error_len h

theorem rules_for_error_shape (mdt : String) (cl sl : Option (List CodeItem))
    (tt : String) :
    ∀ rule ∈ rules_for mdt cl sl tt, ∀ t f, rule t = .error f →
      f.identifiers.length ≤ 1 := by
  intro rule hr t f h
  unfold rules_for at hr
  simp only [List.cons_append, List.nil_append, List.mem_cons] at hr
  rcases hr with rfl | rfl | hr
  · rw [valid_unit_id_check_error h]; decide
  · rw [valid_value_column_check_error h]; decide
  · split_ifs at hr <;> simp only [List.mem_cons, List.not_mem_nil, or_false] at hr
    · rcases hr with rfl | rfl
      · rw [fixed_temporal_variables_check_error h]; decide
      · rw [only_unique_identifiers_check_error h]; decide
    · rcases hr with rfl | rfl
      · rw [status_temporal_variables_check_error h]; decide
      · rw [status_uniquesness_check_error h]; decide
    · rcases hr with rfl | rfl
      · rw [accumulated_temporal_variables_check_error h]; decide
      · exact no_overlapping_timespans_check_error h
    · rcases hr with rfl | rfl
      · rw [event_temporal_variables_check_error h]; decide
      · exact no_overlapping_timespans_check_error h

theorem run_rules_error_len :
    ∀ (rules : List (List Row → Except Failure Unit)) (t : List Row) (f : Failure),
      (∀ rule ∈ rules, ∀ t f, rule t = .error f → f.identifiers.length ≤ 1) →
      run_rules rules t = .error f → f.identifiers.length ≤ 1 := by
  intro rules
  induction rules with
  | nil => intro t f _ h; exact Except.noConfusion h
  | cons rule rest ih =>
    intro t f hall h
    unfold run_rules at h
    cases hr : rule t with
    | error g =>
      rw [hr] at h
      rw [(Except.error.inj h).symm]
      exact hall rule (List.mem_cons_self rule rest) t g hr
    | ok u =>
      cases u
      rw [hr] at h
      exact ih t f (fun r hrm => hall r (List.mem_cons_of_mem rule hrm)) h

/-- Claim C1 (amended): when `validate_dataset` fails, the failure carries a
fixed human-readable message and at most one structurally attached offending
identifier (exactly one, from the overlap check; none from the other rules).
No rule attaches the first-5 identifier sample: the `_format_error_message`
helper that would produce it is never called. -/
theorem validate_failure_attaches_at_most_one_identifier (t : List Row)
    (mdt : String) (cl sl : Option (List CodeItem)) (tt : String) (f : Failure)
    (h : validate_dataset t mdt cl sl tt = .error f) :
    f.identifiers.length ≤ 1 := by
  rw [validate_eq_run_rules_aux] at h
  exact run_rules_error_len (rules_for mdt cl sl tt) t f
    (rules_for_error_shape mdt cl sl tt) h

/-- Witness for the amended claim C1 at a concrete failing run. -/
theorem validate_failure_attaches_at_most_one_identifier_witness :
    (Failure.mk
      "No row can have an empty start or stop column with temporalityType: STATUS"
      []).identifiers.length ≤ 1 :=
  validate_failure_attaches_at_most_one_identifier badStatusTable "STRING" none none
    "STATUS"
    ⟨"No row can have an empty start or stop column with temporalityType: STATUS", []⟩
    (by rfl)

/-- Counterexample to claim C1 as stated: on a STATUS table whose six rows
all violate the temporal rule, the raised failure attaches no identifiers at
all, while the first-5 sample of offending identifiers that
`_format_error_message` would attach is `u1 .. u5`. -/
theorem validate_failure_sample_counterexample :
    status_temporal_variables_check badStatusTable =
      .error
        ⟨"No row can have an empty start or stop column with temporalityType: STATUS",
          []⟩ ∧
    (formatErrorMessage
        ((badStatusTable.filter (fun r =>
          r.stop_epoch_days.isNone || r.start_epoch_days.isNone)).map Row.unit_id)
        "No row can have an empty start or stop column with temporalityType: STATUS").identifiers =
      ["u1", "u2", "u3", "u4", "u5"] ∧
    ([] : List String) ≠ ["u1", "u2", "u3", "u4", "u5"] := by
  exact ⟨rfl, rfl, by decide⟩

theorem find_overlap_nil (stops : List (Option Int)) :
    find_overlap [] stops = .ok false := by
  cases stops <;> rfl

theorem find_overlap_singleton (s0 : Option Int) (stops : List (Option Int)) :
    find_overlap [s0] stops = .ok false := by
  cases stops <;> rfl

/-- Claim C2: for the interval lists of one identifier (sorted by start, all
starts non-null), the adjacent-pair scan reports an overlap exactly when some
non-final position has a null stop, or some position has a stop strictly
greater than the start at the next position.  In particular a stop equal to
the next start passes, and a null stop in final position alone passes. -/
theorem find_overlap_true_iff :
    ∀ (starts : List Int) (stops : List (Option Int)),
      stops.length = starts.length →
      (find_overlap (starts.map some) stops = .ok true ↔
        (∃ i, i + 1 < starts.length ∧ stops[i]? = some none) ∨
        (∃ i v s, stops[i]? = some (some v) ∧ starts[i + 1]? = some s ∧ s < v))
  | [], stops, _ => by
    rw [List.map_nil, find_overlap_nil]
    constructor
    · intro h; exact absurd (Except.ok.inj h) (by simp)
    · rintro (⟨i, hi, _⟩ | ⟨i, v, s, _, hs, _⟩)
      · simp only [List.length_nil] at hi
        omega
      · simp at hs
  | [s0], stops, _ => by
    rw [List.map_cons, List.map_nil, find_overlap_singleton]
    constructor
    · intro h; exact absurd (Except.ok.inj h) (by simp)
    · rintro (⟨i, hi, _⟩ | ⟨i, v, s, _, hs, _⟩)
      · simp only [List.length_cons, List.length_nil] at hi
        omega
      · rcases i with _ | j <;> simp at hs
  | s0 :: s1 :: rest, [], hlen => by
    simp at hlen
  | s0 :: s1 :: rest, stop0 :: stoprest, hlen => by
    have hlen2 : stoprest.length = (s1 :: rest).length := by
      simpa using hlen
    have ih := find_overlap_true_iff (s1 :: rest) stoprest hlen2
    cases stop0 with
    | none =>
      constructor
      · intro _
        refine Or.inl ⟨0, ?_, by simp⟩
        simp only [List.length_cons]
        omega
      · intro _
        rfl
    | some v =>
      by_cases hv : v > s1
      · constructor
        · intro _
          exact Or.inr ⟨0, v, s1, by simp, by simp, hv⟩
        · intro _
          simp only [List.map_cons, find_overlap]
          rw [if_pos hv]
      · have hred : find_overlap ((s0 :: s1 :: rest).map some) (some v :: stoprest) =
            find_overlap ((s1 :: rest).map some) stoprest := by
          simp only [List.map_cons, find_overlap]
          rw [if_neg hv]
        rw [hred, ih]
        constructor
        · rintro (⟨i, hi, hstop⟩ | ⟨i, w, s, hstop, hs, hlt⟩)
          · refine Or.inl ⟨i + 1, ?_, by simpa using hstop⟩
            simp only [List.length_cons] at hi ⊢
            omega
          · exact Or.inr ⟨i + 1, w, s, by simpa using hstop, by simpa using hs, hlt⟩
        · rintro (⟨i, hi, hstop⟩ | ⟨i, w, s, hstop, hs, hlt⟩)
          · rcases i with _ | j
            · simp at hstop
            · refine Or.inl ⟨j, ?_, by simpa using hstop⟩
              simp only [List.length_cons] at hi ⊢
              omega
          · rcases i with _ | j
            · simp only [List.getElem?_cons_succ, List.getElem?_cons_zero,
                Option.some.injEq] at hstop hs
              cases hstop
              cases hs
              omega
            · exact Or.inr ⟨j, w, s, by simpa using hstop, by simpa using hs, hlt⟩

/-- Witness for claim C2 at a concrete input: the intervals (10, 20) and
(20, 30) (stop equal to next start) do not overlap. -/
theorem find_overlap_true_iff_witness :
    find_overlap ([(10 : Int), 20].map some) [some 20, some 30] = .ok true ↔
      (∃ i, i + 1 < [(10 : Int), 20].length ∧
        ([some 20, some 30] : List (Option Int))[i]? = some none) ∨
      (∃ i v s, ([some 20, some 30] : List (Option Int))[i]? = some (some v) ∧
        [(10 : Int), 20][i + 1]? = some s ∧ s < v) :=
  find_overlap_true_iff [10, 20] [some 20, some 30] (by decide)

theorem uniqueFirst_sublist {α : Type} [DecidableEq α] :
    ∀ l : List α, List.Sublist (uniqueFirst l) l
  | [] => by rw [uniqueFirst]
  | a :: l => by
    rw [uniqueFirst]
    exact List.Sublist.cons₂ a
      ((uniqueFirst_sublist _).trans (List.filter_sublist l))
termination_by l => l.length
decreasing_by
  simp only [List.length_cons]
  exact Nat.lt_succ_of_le (List.length_filter_le _ _)

theorem mem_uniqueFirst {α : Type} [DecidableEq α] :
    ∀ (l : List α) (x : α), x ∈ uniqueFirst l ↔ x ∈ l
  | [], x => by rw [uniqueFirst]
  | a :: l, x => by
    rw [uniqueFirst]
    constructor
    · intro h
      rcases List.mem_cons.mp h with rfl | h
      · exact List.mem_cons_self _ _
      · exact List.mem_cons_of_mem a
          (List.mem_of_mem_filter ((mem_uniqueFirst _ x).mp h))
    · intro h
      rcases List.mem_cons.mp h with rfl | h
      · exact List.mem_cons_self _ _
      · by_cases hxa : x = a
        · subst hxa; exact List.mem_cons_self _ _
        · refine List.mem_cons_of_mem a ((mem_uniqueFirst _ x).mpr ?_)
          exact List.mem_filter.mpr ⟨h, by simp [hxa]⟩
termination_by l x => l.length
decreasing_by
  all_goals simp only [List.length_cons]
  all_goals exact Nat.lt_succ_of_le (List.length_filter_le _ _)

theorem nodup_uniqueFirst {α : Type} [DecidableEq α] : ∀ l : List α, (uniqueFirst l).Nodup
  | [] => by rw [uniqueFirst]; exact List.nodup_nil
  | a :: l => by
    rw [uniqueFirst]
    refine List.nodup_cons.mpr ⟨?_, nodup_uniqueFirst _⟩
    intro hmem
    have hm := List.mem_filter.mp ((mem_uniqueFirst _ a).mp hmem)
    simp at hm
termination_by l => l.length
decreasing_by
  simp only [List.length_cons]
  exact Nat.lt_succ_of_le (List.length_filter_le _ _)

theorem uniqueFirst_eq_self_of_nodup {α : Type} [DecidableEq α] :
    ∀ l : List α, l.Nodup → uniqueFirst l = l
  | [], _ => by rw [uniqueFirst]
  | a :: l, h => by
    rw [uniqueFirst]
    obtain ⟨ha, hl⟩ := List.nodup_cons.mp h
    have hf : List.filter (fun x => decide (x ≠ a)) l = l :=
      List.filter_eq_self.mpr (fun x hx => by
        simp only [decide_eq_true_eq]
        exact fun hxa => ha (hxa ▸ hx))
    rw [hf, uniqueFirst_eq_self_of_nodup l hl]
termination_by l => l.length
decreasing_by
  simp only [List.length_cons]
  omega

/-- The distinct-count of a column equals its length exactly when the column
has no duplicates. -/
theorem uniqueFirst_length_eq_iff {α : Type} [DecidableEq α] (l : List α) :
    (uniqueFirst l).length = l.length ↔ l.Nodup := by
  constructor
  · intro h
    have heq := (uniqueFirst_sublist l).eq_of_length h
    rw [← heq]
    exact nodup_uniqueFirst l
  · intro h
    rw [uniqueFirst_eq_self_of_nodup l h]

theorem ite_ok_iff {c : Prop} [Decidable c] {f0 : Failure} :
    ((if c then (.ok () : Except Failure Unit) else .error f0) = .ok ()) ↔ c := by
  split_ifs with h <;> simp [h]

/-- Claim C4: on a table with no null identifiers, the first-character
bucketed uniqueness check passes exactly when the single global
distinct-count uniqueness check passes. -/
theorem bucketed_uniqueness_iff_global (t : List Row)
    (h : ∀ r ∈ t, r.unit_id ≠ none) :
    (only_unique_identifiers_check t = .ok ()) ↔
      global_unique_identifiers t = true := by
  unfold only_unique_identifiers_check global_unique_identifiers
  dsimp only
  rw [ite_ok_iff, List.all_eq_true, beq_iff_eq, uniqueFirst_length_eq_iff]
  have hids : ∀ x ∈ t.map Row.unit_id, x ≠ none := by
    intro x hx
    obtain ⟨r, hr, rfl⟩ := List.mem_map.mp hx
    exact h r hr
  constructor
  · intro hall
    rw [List.nodup_iff_sublist]
    intro a hsub
    have hamem : a ∈ t.map Row.unit_id := hsub.subset (by simp)
    have hpa : pyEqStr (bucketOf a) (bucketOf a) = true := by
      cases ha : a with
      | none => exact absurd ha (hids a hamem)
      | some s => simp [bucketOf, pyEqStr]
    have hb : bucketOf a ∈ uniqueFirst ((t.map Row.unit_id).map bucketOf) :=
      (mem_uniqueFirst _ _).mpr (List.mem_map_of_mem bucketOf hamem)
    have hbnodup := (beq_iff_eq.mp (hall (bucketOf a) hb))
    rw [uniqueFirst_length_eq_iff] at hbnodup
    have hfsub : List.Sublist [a, a]
        ((t.map Row.unit_id).filter (fun i => pyEqStr (bucketOf i) (bucketOf a))) := by
      have hff := hsub.filter (fun i => pyEqStr (bucketOf i) (bucketOf a))
      simpa [List.filter_cons, hpa] using hff
    exact (List.nodup_iff_sublist.mp hbnodup) a hfsub
  · intro hnd b _
    rw [beq_iff_eq, uniqueFirst_length_eq_iff]
    exact hnd.filter _

/-- Witness for claim C4 at a concrete input: a table of six distinct
non-null identifiers. -/
theorem bucketed_uniqueness_iff_global_witness :
    (only_unique_identifiers_check badStatusTable = .ok ()) ↔
      global_unique_identifiers badStatusTable = true :=
  bucketed_uniqueness_iff_global badStatusTable (by decide)

theorem orderedInsert_of_forall_le {α : Type} (r : α → α → Prop) [DecidableRel r]
    (a : α) (l : List α) (h : ∀ c ∈ l, r a c) :
    List.orderedInsert r a l = a :: l := by
  cases l with
  | nil => rfl
  | cons c l =>
    rw [List.orderedInsert]
    exact if_pos (h c (List.mem_cons_self c l))

/-- Filtering commutes with a stable insertion of one element into a sorted
list. -/
theorem filter_orderedInsert {α : Type} (r : α → α → Prop) [DecidableRel r]
    [IsTrans α r] (p : α → Bool) (a : α) :
    ∀ l : List α, l.Sorted r →
      (List.orderedInsert r a l).filter p =
        if p a then List.orderedInsert r a (l.filter p) else l.filter p
  | [], _ => by
    cases hpa : p a <;> simp [List.orderedInsert, List.filter_cons, hpa]
  | b :: l, hs => by
    obtain ⟨hb, hl⟩ := List.sorted_cons.mp hs
    by_cases hab : r a b
    · have h1 : List.orderedInsert r a (b :: l) = a :: b :: l := by
        rw [List.orderedInsert]
        exact if_pos hab
      rw [h1]
      cases hpa : p a
      · simp [List.filter_cons, hpa]
      · rw [if_pos rfl]
        have hall : ∀ c ∈ (b :: l).filter p, r a c := by
          intro c hc
          rcases List.mem_cons.mp (List.mem_of_mem_filter hc) with rfl | hcl
          · exact hab
          · exact IsTrans.trans _ _ _ hab (hb c hcl)
        rw [orderedInsert_of_forall_le r a _ hall]
        simp [List.filter_cons, hpa]
    · have h2 : List.orderedInsert r a (b :: l) = b :: List.orderedInsert r a l := by
        rw [List.orderedInsert]
        exact if_neg hab
      rw [h2, List.filter_cons, filter_orderedInsert r p a l hl, List.filter_cons]
      cases hpa : p a
      · simp [hpa]
      · cases hpb : p b
        · simp [hpa, hpb]
        · simp only [hpa, hpb, if_true, if_false, ite_true, ite_false]
          rw [List.orderedInsert, if_neg hab]

/-- Filtering commutes with the stable sort. -/
theorem filter_insertionSort {α : Type} (r : α → α → Prop) [DecidableRel r]
    [IsTrans α r] [IsTotal α r] (p : α → Bool) :
    ∀ l : List α,
      (List.insertionSort r l).filter p = List.insertionSort r (l.filter p)
  | [] => rfl
  | a :: l => by
    rw [List.insertionSort,
      filter_orderedInsert r p a _ (List.sorted_insertionSort r l),
      filter_insertionSort r p l, List.filter_cons]
    cases hpa : p a
    · simp [hpa]
    · simp only [hpa, ite_true, if_true]
      rw [List.insertionSort]

theorem scanGroups_isOk_iff (sorted_rows : List Row) :
    ∀ uids : List (Option String),
      (scanGroups sorted_rows uids).isOk = true ↔
        ∀ uid ∈ uids,
          find_overlap ((groupRows sorted_rows uid).map Row.start_epoch_days)
            ((groupRows sorted_rows uid).map Row.stop_epoch_days) = .ok false
  | [] => by simp [scanGroups]
  | uid :: rest => by
    rw [scanGroups]
    cases hfo : find_overlap ((groupRows sorted_rows uid).map Row.start_epoch_days)
        ((groupRows sorted_rows uid).map Row.stop_epoch_days) with
    | error e =>
      simp only [except_isOk_error, Bool.false_eq_true, false_iff]
      intro hall
      exact absurd (hall uid (List.mem_cons_self _ _)) (by rw [hfo]; simp)
    | ok bv =>
      cases bv with
      | true =>
        simp only [except_isOk_error, Bool.false_eq_true, false_iff]
        intro hall
        exact absurd (hall uid (List.mem_cons_self _ _)) (by rw [hfo]; simp)
      | false =>
        rw [List.forall_mem_cons]
        simp [scanGroups_isOk_iff sorted_rows rest, hfo]

theorem scanGroupsUnbatched_isOk_iff (t : List Row) :
    ∀ uids : List (Option String),
      (scanGroupsUnbatched t uids).isOk = true ↔
        ∀ uid ∈ uids,
          find_overlap ((sortByStart (groupRows t uid)).map Row.start_epoch_days)
            ((sortByStart (groupRows t uid)).map Row.stop_epoch_days) = .ok false
  | [] => by simp [scanGroupsUnbatched]
  | uid :: rest => by
    rw [scanGroupsUnbatched]
    cases hfo : find_overlap ((sortByStart (groupRows t uid)).map Row.start_epoch_days)
        ((sortByStart (groupRows t uid)).map Row.stop_epoch_days) with
    | error e =>
      simp only [except_isOk_error, Bool.false_eq_true, false_iff]
      intro hall
      exact absurd (hall uid (List.mem_cons_self _ _)) (by rw [hfo]; simp)
    | ok bv =>
      cases bv with
      | true =>
        simp only [except_isOk_error, Bool.false_eq_true, false_iff]
        intro hall
        exact absurd (hall uid (List.mem_cons_self _ _)) (by rw [hfo]; simp)
      | false =>
        rw [List.forall_mem_cons]
        simp [scanGroupsUnbatched_isOk_iff t rest, hfo]

theorem runBatches_isOk_iff (t : List Row) :
    ∀ batches : List (List (Option String)),
      (runBatches t batches).isOk = true ↔
        ∀ b ∈ batches,
          (scanGroups (batchSorted t b)
            (uniqueFirst ((batchSorted t b).map Row.unit_id))).isOk = true
  | [] => by simp [runBatches]
  | b :: rest => by
    rw [runBatches]
    cases hsg : scanGroups (batchSorted t b)
        (uniqueFirst ((batchSorted t b).map Row.unit_id)) with
    | error f =>
      simp only [except_isOk_error, Bool.false_eq_true, false_iff]
      intro hall
      exact absurd (hall b (List.mem_cons_self _ _)) (by rw [hsg]; simp)
    | ok u =>
      cases u
      rw [List.forall_mem_cons]
      simp [runBatches_isOk_iff t rest, hsg]

theorem filter_group_batch (t : List Row) (b : List (Option String))
    (uid : Option String) (hmem : b.contains uid = true) :
    (t.filter (fun r => b.contains r.unit_id)).filter (fun r => r.unit_id == uid) =
      t.filter (fun r => r.unit_id == uid) := by
  rw [List.filter_filter]
  apply List.filter_congr
  intro r _
  cases hru : (r.unit_id == uid) with
  | false => simp [hru]
  | true =>
    have heq : r.unit_id = uid := eq_of_beq hru
    rw [heq, hmem, Bool.and_true]

/-- For an identifier inside the batch, the group produced from the sorted
batch table is the same as stable-sorting the rows of that identifier
alone. -/
theorem groupRows_batchSorted (t : List Row) (b : List (Option String))
    (uid : Option String) (hmem : b.contains uid = true) :
    groupRows (batchSorted t b) uid = sortByStart (groupRows t uid) := by
  unfold groupRows batchSorted sortByStart
  rw [filter_insertionSort rowStartLe (fun r => r.unit_id == uid)
    (t.filter (fun r => b.contains r.unit_id)), filter_group_batch t b uid hmem]

theorem batchList_flatten {α : Type} :
    ∀ (l : List α) (bs : Nat), 0 < bs → (batchList l bs).flatten = l
  | [], _, _ => by rw [batchList]; rfl
  | _ :: _, 0, h => absurd h (Nat.lt_irrefl 0)
  | a :: l, bs + 1, _ => by
    rw [batchList, List.flatten_cons,
      batchList_flatten ((a :: l).drop (bs + 1)) (bs + 1) (Nat.succ_pos bs),
      List.take_append_drop]
termination_by l bs => l.length
decreasing_by
  simp only [List.length_drop, List.length_cons]
  omega

theorem mem_uids_batchSorted (t : List Row) (b : List (Option String))
    (uid : Option String) :
    uid ∈ (batchSorted t b).map Row.unit_id ↔
      uid ∈ t.map Row.unit_id ∧ b.contains uid = true := by
  unfold batchSorted sortByStart
  constructor
  · intro h
    obtain ⟨r, hr, rfl⟩ := List.mem_map.mp h
    have hrs : r ∈ t.filter (fun r => b.contains r.unit_id) :=
      (List.mem_insertionSort rowStartLe).mp hr
    have hrf := List.mem_filter.mp hrs
    exact ⟨List.mem_map_of_mem Row.unit_id hrf.1, hrf.2⟩
  · rintro ⟨h1, h2⟩
    obtain ⟨r, hr, rfl⟩ := List.mem_map.mp h1
    refine List.mem_map_of_mem Row.unit_id ?_
    refine (List.mem_insertionSort rowStartLe).mpr ?_
    exact List.mem_filter.mpr ⟨hr, h2⟩

/-- Claim C3: for every positive batch size, the batched overlap check and
the unbatched per-identifier check accept exactly the same tables. -/
theorem overlap_check_batch_size_invariant (t : List Row) (bs : Nat)
    (hbs : 0 < bs) :
    (no_overlapping_timespans_check_batched bs t).isOk =
      (no_overlapping_timespans_unbatched t).isOk := by
  rw [Bool.eq_iff_iff]
  unfold no_overlapping_timespans_check_batched no_overlapping_timespans_unbatched
  rw [runBatches_isOk_iff, scanGroupsUnbatched_isOk_iff]
  constructor
  · intro hall uid huid
    have hflat : uid ∈ (batchList (uniqueFirst (t.map Row.unit_id)) bs).flatten := by
      rw [batchList_flatten _ bs hbs]
      exact huid
    obtain ⟨bb, hbb, hub⟩ := List.mem_flatten.mp hflat
    have hcont : bb.contains uid = true := by
      rw [List.contains_eq_any_beq, List.any_eq_true]
      exact ⟨uid, hub, by simp⟩
    have hmemu : uid ∈ uniqueFirst ((batchSorted t bb).map Row.unit_id) :=
      (mem_uniqueFirst _ _).mpr ((mem_uids_batchSorted t bb uid).mpr
        ⟨(mem_uniqueFirst _ _).mp huid, hcont⟩)
    have hscan := (scanGroups_isOk_iff _ _).mp (hall bb hbb) uid hmemu
    rw [groupRows_batchSorted t bb uid hcont] at hscan
    exact hscan
  · intro hall bb hbb
    rw [scanGroups_isOk_iff]
    intro uid huidb
    have hmm := (mem_uids_batchSorted t bb uid).mp ((mem_uniqueFirst _ _).mp huidb)
    rw [groupRows_batchSorted t bb uid hmm.2]
    exact hall uid ((mem_uniqueFirst _ _).mpr hmm.1)

/-- Witness for claim C3 at a concrete input and batch size 1. -/
theorem overlap_check_batch_size_invariant_witness :
    (no_overlapping_timespans_check_batched 1 overlapTable).isOk =
      (no_overlapping_timespans_unbatched overlapTable).isOk :=
  overlap_check_batch_size_invariant overlapTable 1 (by decide)

theorem colMin_isSome_iff (l : List (Option Int)) :
    (colMin l).isSome = true ↔ ∃ o ∈ l, o ≠ none := by
  unfold colMin
  rw [Option.isSome_iff_ne_none, ne_eq, List.min?_eq_none_iff]
  constructor
  · intro h
    obtain ⟨x, hx⟩ := List.exists_mem_of_ne_nil _ h
    obtain ⟨o, ho, hid⟩ := List.mem_filterMap.mp hx
    exact ⟨o, ho, by simp only [id] at hid; simp [hid]⟩
  · rintro ⟨o, ho, hne⟩ hcon
    cases hov : o with
    | none => exact hne hov
    | some x =>
      have hxm : x ∈ l.filterMap id :=
        List.mem_filterMap.mpr ⟨o, ho, by rw [hov]; rfl⟩
      rw [hcon] at hxm
      exact List.not_mem_nil x hxm

theorem colMax_isSome_iff (l : List (Option Int)) :
    (colMax l).isSome = true ↔ ∃ o ∈ l, o ≠ none := by
  unfold colMax
  rw [Option.isSome_iff_ne_none, ne_eq, List.max?_eq_none_iff]
  constructor
  · intro h
    obtain ⟨x, hx⟩ := List.exists_mem_of_ne_nil _ h
    obtain ⟨o, ho, hid⟩ := List.mem_filterMap.mp hx
    exact ⟨o, ho, by simp only [id] at hid; simp [hid]⟩
  · rintro ⟨o, ho, hne⟩ hcon
    cases hov : o with
    | none => exact hne hov
    | some x =>
      have hxm : x ∈ l.filterMap id :=
        List.mem_filterMap.mpr ⟨o, ho, by rw [hov]; rfl⟩
      rw [hcon] at hxm
      exact List.not_mem_nil x hxm

theorem pyMinOfPair_isSome_iff (a b : Option Int) :
    (pyMinOfPair a b).isSome = true ↔ (a.isSome = true ∨ b.isSome = true) := by
  cases a <;> cases b <;> simp [pyMinOfPair]

theorem pyMaxOfPair_isSome_iff (a b : Option Int) :
    (pyMaxOfPair a b).isSome = true ↔ (a.isSome = true ∨ b.isSome = true) := by
  cases a <;> cases b <;> simp [pyMaxOfPair]

theorem decodeColumn_isSome_iff :
    ∀ l : List (Option Int), (decodeColumn l).isSome = true ↔ ∀ o ∈ l, o ≠ none
  | [] => by simp [decodeColumn]
  | none :: l => by simp [decodeColumn]
  | some x :: l => by
    rw [decodeColumn, List.forall_mem_cons]
    cases hd : decodeColumn l with
    | none =>
      have hih := decodeColumn_isSome_iff l
      rw [hd] at hih
      simp only [Option.isSome_none, Bool.false_eq_true, false_iff] at hih
      simp [hih]
    | some s =>
      have hih := decodeColumn_isSome_iff l
      rw [hd] at hih
      simp only [Option.isSome_some, true_iff] at hih
      simp only [Option.isSome_some, true_iff, ne_eq]
      exact ⟨by simp, fun o ho => hih o ho⟩

theorem exists_col_ne_none (f : Row → Option Int) (t : List Row) :
    (∃ o ∈ t.map f, o ≠ none) ↔ ∃ r ∈ t, f r ≠ none := by
  constructor
  · rintro ⟨o, ho, hne⟩
    obtain ⟨r, hr, rfl⟩ := List.mem_map.mp ho
    exact ⟨r, hr, hne⟩
  · rintro ⟨r, hr, hne⟩
    exact ⟨f r, List.mem_map_of_mem f hr, hne⟩

theorem get_temporal_data_other_isSome (t : List Row) (tt : String)
    (h1 : ¬tt = "FIXED") (h2 : ¬tt = "STATUS") :
    (get_temporal_data t tt).isSome = true ↔
      ∃ r ∈ t, (r.start_epoch_days ≠ none ∨ r.stop_epoch_days ≠ none) := by
  unfold get_temporal_data
  rw [if_neg h1]
  cases hmin : pyMinOfPair (colMin (t.map Row.start_epoch_days))
      (colMin (t.map Row.stop_epoch_days)) with
  | none =>
    dsimp only
    simp only [Option.isSome_none, Bool.false_eq_true, false_iff]
    rintro ⟨r, hr, hor⟩
    have hsome : (pyMinOfPair (colMin (t.map Row.start_epoch_days))
        (colMin (t.map Row.stop_epoch_days))).isSome = true := by
      rw [pyMinOfPair_isSome_iff]
      rcases hor with hx | hx
      · exact Or.inl ((colMin_isSome_iff _).mpr ⟨_, List.mem_map_of_mem _ hr, hx⟩)
      · exact Or.inr ((colMin_isSome_iff _).mpr ⟨_, List.mem_map_of_mem _ hr, hx⟩)
    rw [hmin] at hsome
    exact absurd hsome (by simp)
  | some mn =>
    cases hmax : pyMaxOfPair (colMax (t.map Row.start_epoch_days))
        (colMax (t.map Row.stop_epoch_days)) with
    | none =>
      dsimp only
      simp only [Option.isSome_none, Bool.false_eq_true, false_iff]
      rintro ⟨r, hr, hor⟩
      have hsome : (pyMaxOfPair (colMax (t.map Row.start_epoch_days))
          (colMax (t.map Row.stop_epoch_days))).isSome = true := by
        rw [pyMaxOfPair_isSome_iff]
        rcases hor with hx | hx
        · exact Or.inl ((colMax_isSome_iff _).mpr ⟨_, List.mem_map_of_mem _ hr, hx⟩)
        · exact Or.inr ((colMax_isSome_iff _).mpr ⟨_, List.mem_map_of_mem _ hr, hx⟩)
      rw [hmax] at hsome
      exact absurd hsome (by simp)
    | some mx =>
      dsimp only
      rw [if_neg h2]
      simp only [Option.isSome_some, true_iff]
      have h3 : (pyMinOfPair (colMin (t.map Row.start_epoch_days))
          (colMin (t.map Row.stop_epoch_days))).isSome = true := by
        rw [hmin]; rfl
      rw [pyMinOfPair_isSome_iff] at h3
      rcases h3 with h3 | h3
      · rw [colMin_isSome_iff] at h3
        obtain ⟨o, ho, hne⟩ := h3
        obtain ⟨r, hr, rfl⟩ := List.mem_map.mp ho
        exact ⟨r, hr, Or.inl hne⟩
      · rw [colMin_isSome_iff] at h3
        obtain ⟨o, ho, hne⟩ := h3
        obtain ⟨r, hr, rfl⟩ := List.mem_map.mp ho
        exact ⟨r, hr, Or.inr hne⟩

/-- Claim C7 (amended): the temporal coverage summarizer succeeds exactly
when the columns it aggregates hold the non-null data it needs, so it can
also fail on NON-empty tables.  FIXED needs some non-null stop; STATUS needs
a non-empty table with every start non-null; EVENT and ACCUMULATED need some
non-null value among starts and stops. -/
theorem get_temporal_data_isSome_characterization (t : List Row) :
    ((get_temporal_data t "FIXED").isSome = true ↔
      ∃ r ∈ t, r.stop_epoch_days ≠ none) ∧
    ((get_temporal_data t "STATUS").isSome = true ↔
      (t ≠ [] ∧ ∀ r ∈ t, r.start_epoch_days ≠ none)) ∧
    ((get_temporal_data t "EVENT").isSome = true ↔
      ∃ r ∈ t, (r.start_epoch_days ≠ none ∨ r.stop_epoch_days ≠ none)) ∧
    ((get_temporal_data t "ACCUMULATED").isSome = true ↔
      ∃ r ∈ t, (r.start_epoch_days ≠ none ∨ r.stop_epoch_days ≠ none)) := by
  refine ⟨?_, ?_, ?_, ?_⟩
  · unfold get_temporal_data
    rw [if_pos rfl]
    cases hm : colMax (t.map Row.stop_epoch_days) with
    | none =>
      have hiff := colMax_isSome_iff (t.map Row.stop_epoch_days)
      rw [hm] at hiff
      simp only [Option.isSome_none, Bool.false_eq_true, false_iff] at hiff
      dsimp only
      simp only [Option.isSome_none, Bool.false_eq_true, false_iff]
      intro hex
      exact hiff ((exists_col_ne_none _ t).mpr hex)
    | some v =>
      have hiff := colMax_isSome_iff (t.map Row.stop_epoch_days)
      rw [hm] at hiff
      simp only [Option.isSome_some, true_iff] at hiff
      dsimp only
      simp only [Option.isSome_some, true_iff]
      exact (exists_col_ne_none _ t).mp hiff
  · unfold get_temporal_data
    rw [if_neg (by decide)]
    cases hmin : pyMinOfPair (colMin (t.map Row.start_epoch_days))
        (colMin (t.map Row.stop_epoch_days)) with
    | none =>
      dsimp only
      simp only [Option.isSome_none, Bool.false_eq_true, false_iff]
      rintro ⟨hne, hall⟩
      have hs : (colMin (t.map Row.start_epoch_days)).isSome = true := by
        rw [colMin_isSome_iff]
        obtain ⟨r, hr⟩ := List.exists_mem_of_ne_nil t hne
        exact ⟨r.start_epoch_days, List.mem_map_of_mem _ hr, hall r hr⟩
      have hsome := (pyMinOfPair_isSome_iff (colMin (t.map Row.start_epoch_days))
        (colMin (t.map Row.stop_epoch_days))).mpr (Or.inl hs)
      rw [hmin] at hsome
      exact absurd hsome (by simp)
    | some mn =>
      cases hmax : pyMaxOfPair (colMax (t.map Row.start_epoch_days))
          (colMax (t.map Row.stop_epoch_days)) with
      | none =>
        dsimp only
        simp only [Option.isSome_none, Bool.false_eq_true, false_iff]
        rintro ⟨hne, hall⟩
        have hs : (colMax (t.map Row.start_epoch_days)).isSome = true := by
          rw [colMax_isSome_iff]
          obtain ⟨r, hr⟩ := List.exists_mem_of_ne_nil t hne
          exact ⟨r.start_epoch_days, List.mem_map_of_mem _ hr, hall r hr⟩
        have hsome := (pyMaxOfPair_isSome_iff (colMax (t.map Row.start_epoch_days))
          (colMax (t.map Row.stop_epoch_days))).mpr (Or.inl hs)
        rw [hmax] at hsome
        exact absurd hsome (by simp)
      | some mx =>
        dsimp only
        rw [if_pos rfl]
        cases hdec : decodeColumn (uniqueFirst (t.map Row.start_epoch_days)) with
        | none =>
          have hiff := decodeColumn_isSome_iff (uniqueFirst (t.map Row.start_epoch_days))
          rw [hdec] at hiff
          simp only [Option.isSome_none, Bool.false_eq_true, false_iff] at hiff
          simp only [Option.isSome_none, Bool.false_eq_true, false_iff]
          rintro ⟨hne, hall⟩
          apply hiff
          intro o ho
          obtain ⟨r, hr, rfl⟩ := List.mem_map.mp ((mem_uniqueFirst _ o).mp ho)
          exact hall r hr
        | some sd =>
          simp only [Option.isSome_some, true_iff]
          constructor
          · have h2 : (pyMinOfPair (colMin (t.map Row.start_epoch_days))
                (colMin (t.map Row.stop_epoch_days))).isSome = true := by
              rw [hmin]; rfl
            rw [pyMinOfPair_isSome_iff] at h2
            rcases h2 with h2 | h2 <;>
              · rw [colMin_isSome_iff] at h2
                obtain ⟨o, ho, _⟩ := h2
                obtain ⟨r, hr, _⟩ := List.mem_map.mp ho
                intro hcon
                rw [hcon] at hr
                exact List.not_mem_nil r hr
          · have hiff := decodeColumn_isSome_iff (uniqueFirst (t.map Row.start_epoch_days))
            rw [hdec] at hiff
            simp only [Option.isSome_some, true_iff] at hiff
            intro r hr
            exact hiff r.start_epoch_days
              ((mem_uniqueFirst _ _).mpr (List.mem_map_of_mem _ hr))
  · exact get_temporal_data_other_isSome t "EVENT" (by decide) (by decide)
  · exact get_temporal_data_other_isSome t "ACCUMULATED" (by decide) (by decide)

/-- Counterexample to claim C7 as stated: a non-empty EVENT table whose only
row has null start and stop makes `get_temporal_data` raise
(`min([])` in Python), even though the table is not empty. -/
theorem get_temporal_data_nonempty_counterexample :
    get_temporal_data [⟨some "A", some "x", none, none⟩] "EVENT" = none ∧
    ([⟨some "A", some "x", none, none⟩] : List Row) ≠ [] :=
  ⟨rfl, by decide⟩

theorem daysInMonth_ge (y m : Int) : 28 ≤ daysInMonth y m := by
  unfold daysInMonth
  split_ifs <;> omega

theorem daysInMonth_le (y m : Int) : daysInMonth y m ≤ 31 := by
  unfold daysInMonth
  split_ifs <;> omega

theorem daysInMonth_twelve (y : Int) : daysInMonth y 12 = 31 := by
  unfold daysInMonth
  norm_num

theorem validDate_nextDate {d : Date} (h : ValidDate d) : ValidDate (nextDate d) := by
  obtain ⟨h1, h2, h3, h4⟩ := h
  unfold nextDate ValidDate
  split_ifs with ha hb <;> dsimp only
  · exact ⟨h1, h2, by omega, by omega⟩
  · have hg := daysInMonth_ge d.year (d.month + 1)
    exact ⟨by omega, by omega, by omega, by omega⟩
  · have hg := daysInMonth_ge (d.year + 1) 1
    exact ⟨by omega, by omega, by omega, by omega⟩

theorem validDate_prevDate {d : Date} (h : ValidDate d) : ValidDate (prevDate d) := by
  obtain ⟨h1, h2, h3, h4⟩ := h
  unfold prevDate ValidDate
  split_ifs with ha hb <;> dsimp only
  · exact ⟨h1, h2, by omega, by omega⟩
  · have hg := daysInMonth_ge d.year (d.month - 1)
    exact ⟨by omega, by omega, by omega, by omega⟩
  · have h12 := daysInMonth_twelve (d.year - 1)
    exact ⟨by omega, by omega, by omega, by omega⟩

theorem nextDate_prevDate {d : Date} (h : ValidDate d) : nextDate (prevDate d) = d := by
  obtain ⟨y, m, day⟩ := d
  unfold ValidDate at h
  dsimp only at h
  obtain ⟨h1, h2, h3, h4⟩ := h
  unfold prevDate
  dsimp only
  split_ifs with ha hb
  · unfold nextDate
    dsimp only
    rw [if_pos (by omega)]
    have hd2 : day - 1 + 1 = day := by omega
    rw [hd2]
  · unfold nextDate
    dsimp only
    have hg1 := daysInMonth_ge y (m - 1)
    have hg2 := daysInMonth_le y (m - 1)
    rw [if_neg (by omega), if_pos (by omega)]
    have hm2 : m - 1 + 1 = m := by omega
    have hd2 : day = 1 := by omega
    rw [hm2, hd2]
  · unfold nextDate
    dsimp only
    have h12 := daysInMonth_twelve (y - 1)
    rw [if_neg (by omega), if_neg (by omega)]
    have hy2 : y - 1 + 1 = y := by omega
    have hm2 : m = 1 := by omega
    have hd2 : day = 1 := by omega
    rw [hy2, hm2, hd2]

theorem dateLt_nextDate {d : Date} (h : ValidDate d) : dateLt d (nextDate d) := by
  obtain ⟨h1, h2, h3, h4⟩ := h
  unfold nextDate dateLt
  split_ifs <;> dsimp only <;> omega

theorem dateLt_trans {a b c : Date} (h1 : dateLt a b) (h2 : dateLt b c) :
    dateLt a c := by
  unfold dateLt at h1 h2 ⊢
  omega

theorem validDate_epochBase : ValidDate ⟨1970, 1, 1⟩ := by
  unfold ValidDate daysInMonth
  norm_num

theorem validDate_decodeEpoch (n : Int) : ValidDate (decodeEpoch n) := by
  unfold decodeEpoch
  split_ifs
  · generalize n.toNat = k
    induction k with
    | zero => exact validDate_epochBase
    | succ k ih =>
      rw [Function.iterate_succ_apply']
      exact validDate_nextDate ih
  · generalize (-n).toNat = k
    induction k with
    | zero => exact validDate_epochBase
    | succ k ih =>
      rw [Function.iterate_succ_apply']
      exact validDate_prevDate ih

theorem decodeEpoch_succ (n : Int) : decodeEpoch (n + 1) = nextDate (decodeEpoch n) := by
  by_cases hn : 0 ≤ n
  · unfold decodeEpoch
    rw [if_pos hn, if_pos (by omega)]
    have hk : (n + 1).toNat = n.toNat + 1 := by omega
    rw [hk, Function.iterate_succ_apply']
  · have h1 : decodeEpoch n = prevDate (decodeEpoch (n + 1)) := by
      by_cases h01 : 0 ≤ n + 1
      · have hn1 : n = -1 := by omega
        subst hn1
        rfl
      · unfold decodeEpoch
        rw [if_neg hn, if_neg h01]
        have hk : (-n).toNat = (-(n + 1)).toNat + 1 := by omega
        rw [hk, Function.iterate_succ_apply']
    rw [h1, nextDate_prevDate (validDate_decodeEpoch (n + 1))]

theorem decodeEpoch_strictMono {m n : Int} (h : m < n) :
    dateLt (decodeEpoch m) (decodeEpoch n) := by
  have key : ∀ k : Int, m + 1 ≤ k → dateLt (decodeEpoch m) (decodeEpoch k) := by
    refine Int.le_induction ?_ ?_
    · rw [decodeEpoch_succ]
      exact dateLt_nextDate (validDate_decodeEpoch m)
    · intro k _ ih
      rw [decodeEpoch_succ]
      exact dateLt_trans ih (dateLt_nextDate (validDate_decodeEpoch k))
  exact key n (by omega)

theorem cumDays_bounds (m : Int) (h1 : 1 ≤ m) (h2 : m ≤ 12) :
    0 ≤ cumDays m ∧ cumDays m ≤ 334 := by
  interval_cases m <;> norm_num [cumDays]

theorem rataDie_nextDate {d : Date} (h : ValidDate d) :
    rataDie (nextDate d) = rataDie d + 1 := by
  obtain ⟨y, m, day⟩ := d
  unfold ValidDate at h
  dsimp only at h
  obtain ⟨h1, h2, h3, h4⟩ := h
  unfold nextDate
  dsimp only
  split_ifs with ha hb
  · unfold rataDie
    dsimp only
    omega
  · have hday : day = daysInMonth y m := by omega
    subst hday
    unfold rataDie
    dsimp only
    have hm2 : m ≤ 11 := by omega
    interval_cases m <;>
      cases hl : isLeap y <;>
        simp [cumDays, daysInMonth, hl] <;> omega
  · have hm12 : m = 12 := by omega
    subst hm12
    have h31 := daysInMonth_twelve y
    have hday : day = 31 := by omega
    subst hday
    unfold rataDie
    dsimp only
    have hcum1 : cumDays 1 = 0 := by norm_num [cumDays]
    have hcum12 : cumDays 12 = 334 := by norm_num [cumDays]
    rw [hcum1, hcum12]
    have hiteA : (if 2 < (1 : Int) ∧ isLeap (y + 1) = true then (1 : Int) else 0) = 0 := by
      norm_num
    rw [hiteA]
    cases hl : isLeap y with
    | false =>
      rw [if_neg (by simp [hl])]
      have hl2 : ¬isLeap y = true := by simp [hl]
      unfold isLeap at hl2
      simp only [Bool.and_eq_true, Bool.or_eq_true, beq_iff_eq, bne_iff_ne, ne_eq] at hl2
      omega
    | true =>
      rw [if_pos (by simp [hl])]
      unfold isLeap at hl
      simp only [Bool.and_eq_true, Bool.or_eq_true, beq_iff_eq, bne_iff_ne, ne_eq] at hl
      omega

theorem rataDie_prevDate {d : Date} (h : ValidDate d) :
    rataDie (prevDate d) = rataDie d - 1 := by
  have h2 := rataDie_nextDate (validDate_prevDate h)
  rw [nextDate_prevDate h] at h2
  omega

theorem rataDie_decodeEpoch (n : Int) : rataDie (decodeEpoch n) = 719163 + n := by
  have hbase : rataDie ⟨1970, 1, 1⟩ = 719163 := by decide
  induction n using Int.induction_on with
  | hz =>
    rw [show decodeEpoch 0 = ⟨1970, 1, 1⟩ from rfl, hbase]
    omega
  | hp i ih =>
    rw [decodeEpoch_succ, rataDie_nextDate (validDate_decodeEpoch _), ih]
    omega
  | hn i ih =>
    have hstep := decodeEpoch_succ (-(i : Int) - 1)
    rw [show (-(i : Int) - 1 + 1) = -(i : Int) by ring] at hstep
    have hrn := rataDie_nextDate (validDate_decodeEpoch (-(i : Int) - 1))
    rw [← hstep] at hrn
    omega

theorem year_bound_of_rataDie {d : Date} (hv : ValidDate d)
    (hlo : 686395 ≤ rataDie d) (hhi : rataDie d ≤ 751930) :
    1000 ≤ d.year ∧ d.year ≤ 9999 := by
  obtain ⟨h1, h2, h3, h4⟩ := hv
  have hc := cumDays_bounds d.month h1 h2
  have hd31 := daysInMonth_le d.year d.month
  unfold rataDie at hlo hhi
  split_ifs at hlo hhi <;> omega

theorem decimalDigit_congr {a b : Nat} (h : a % 10 = b % 10) :
    decimalDigit a = decimalDigit b := by
  unfold decimalDigit
  rw [h]

theorem decimalDigit_lt {a b : Nat} (h : a % 10 < b % 10) :
    decimalDigit a < decimalDigit b := by
  have ha : a % 10 < 10 := Nat.mod_lt _ (by omega)
  have hb : b % 10 < 10 := Nat.mod_lt _ (by omega)
  unfold decimalDigit
  generalize hka : a % 10 = ka at h ha
  generalize hkb : b % 10 = kb at h hb
  interval_cases ka <;> interval_cases kb <;> decide

theorem lex_year_block {a b : Nat} (r1 r2 : List Char) (hab : a < b) (hb : b ≤ 9999) :
    List.Lex (· < ·)
      (decimalDigit (a / 1000) :: decimalDigit (a / 100) :: decimalDigit (a / 10) ::
        decimalDigit a :: r1)
      (decimalDigit (b / 1000) :: decimalDigit (b / 100) :: decimalDigit (b / 10) ::
        decimalDigit b :: r2) := by
  by_cases h3 : a / 1000 % 10 < b / 1000 % 10
  · exact List.Lex.rel (decimalDigit_lt h3)
  · have e3 : a / 1000 % 10 = b / 1000 % 10 := by omega
    rw [decimalDigit_congr e3]
    apply List.Lex.cons
    by_cases h2 : a / 100 % 10 < b / 100 % 10
    · exact List.Lex.rel (decimalDigit_lt h2)
    · have e2 : a / 100 % 10 = b / 100 % 10 := by omega
      rw [decimalDigit_congr e2]
      apply List.Lex.cons
      by_cases h1 : a / 10 % 10 < b / 10 % 10
      · exact List.Lex.rel (decimalDigit_lt h1)
      · have e1 : a / 10 % 10 = b / 10 % 10 := by omega
        rw [decimalDigit_congr e1]
        apply List.Lex.cons
        exact List.Lex.rel (decimalDigit_lt (by omega))

theorem lex_pair_block {a b : Nat} (r1 r2 : List Char) (hab : a < b) (hb : b ≤ 99) :
    List.Lex (· < ·)
      (decimalDigit (a / 10) :: decimalDigit a :: r1)
      (decimalDigit (b / 10) :: decimalDigit b :: r2) := by
  by_cases h1 : a / 10 % 10 < b / 10 % 10
  · exact List.Lex.rel (decimalDigit_lt h1)
  · have e1 : a / 10 % 10 = b / 10 % 10 := by omega
    rw [decimalDigit_congr e1]
    apply List.Lex.cons
    exact List.Lex.rel (decimalDigit_lt (by omega))

theorem formatDate_lt {d e : Date} (hd : ValidDate d) (he : ValidDate e)
    (hyd1 : 1000 ≤ d.year) (hyd2 : d.year ≤ 9999)
    (hye1 : 1000 ≤ e.year) (hye2 : e.year ≤ 9999)
    (hlt : dateLt d e) : formatDate d < formatDate e := by
  obtain ⟨hdm1, hdm2, hdd1, hdd2⟩ := hd
  obtain ⟨hem1, hem2, hed1, hed2⟩ := he
  have hdd31 := daysInMonth_le d.year d.month
  have hed31 := daysInMonth_le e.year e.month
  rw [String.lt_iff_toList_lt]
  show List.Lex (fun c1 c2 : Char => c1 < c2) (formatDate d).toList (formatDate e).toList
  unfold formatDate
  dsimp only [String.toList]
  rcases hlt with hy | ⟨hy, hm | ⟨hm, hday⟩⟩
  · exact lex_year_block _ _ (by omega) (by omega)
  · have hyt : d.year.toNat = e.year.toNat := by omega
    rw [hyt]
    apply List.Lex.cons
    apply List.Lex.cons
    apply List.Lex.cons
    apply List.Lex.cons
    apply List.Lex.cons
    exact lex_pair_block _ _ (by omega) (by omega)
  · have hyt : d.year.toNat = e.year.toNat := by omega
    have hmt : d.month.toNat = e.month.toNat := by omega
    rw [hyt, hmt]
    apply List.Lex.cons
    apply List.Lex.cons
    apply List.Lex.cons
    apply List.Lex.cons
    apply List.Lex.cons
    apply List.Lex.cons
    apply List.Lex.cons
    apply List.Lex.cons
    exact lex_pair_block _ _ (by omega) (by omega)

/-- Decoding and rendering an epoch day in the int16 range is strictly
monotone with respect to the lexicographic string order (the order used by
Python `list.sort()`). -/
theorem formatEpoch_lt {m n : Int} (hm : -32768 ≤ m) (hn : n ≤ 32767)
    (hlt : m < n) : formatEpoch m < formatEpoch n := by
  have hdm := validDate_decodeEpoch m
  have hdn := validDate_decodeEpoch n
  have hrm := rataDie_decodeEpoch m
  have hrn := rataDie_decodeEpoch n
  have hym := year_bound_of_rataDie hdm (by omega) (by omega)
  have hyn := year_bound_of_rataDie hdn (by omega) (by omega)
  exact formatDate_lt hdm hdn hym.1 hym.2 hyn.1 hyn.2 (decodeEpoch_strictMono hlt)

theorem uniqueFirst_map_some :
    ∀ l : List Int, uniqueFirst (l.map some) = (uniqueFirst l).map some
  | [] => by
    simp [uniqueFirst]
  | a :: l => by
    rw [List.map_cons, uniqueFirst, uniqueFirst, List.map_cons, List.filter_map]
    have hcongr : (l.filter (fun x => decide (some x ≠ some a))) =
        (l.filter (fun x => decide (x ≠ a))) :=
      List.filter_congr (fun x _ => by simp)
    rw [show ((fun x : Option Int => decide (x ≠ some a)) ∘ some) =
      (fun x : Int => decide (some x ≠ some a)) from rfl, hcongr,
      uniqueFirst_map_some (l.filter (fun x => decide (x ≠ a)))]
termination_by l => l.length
decreasing_by
  simp only [List.length_cons]
  exact Nat.lt_succ_of_le (List.length_filter_le _ _)

theorem decodeColumn_map_some :
    ∀ l : List Int, decodeColumn (l.map some) = some (l.map formatEpoch)
  | [] => rfl
  | x :: l => by
    rw [List.map_cons, decodeColumn, decodeColumn_map_some l, List.map_cons]

theorem map_start_eq_of_all_some (t : List Row)
    (h : ∀ r ∈ t, ∃ d : Int, r.start_epoch_days = some d) :
    t.map Row.start_epoch_days = (t.filterMap Row.start_epoch_days).map some := by
  induction t with
  | nil => rfl
  | cons r t ih =>
    obtain ⟨d, hd⟩ := h r (List.mem_cons_self r t)
    rw [List.map_cons, List.filterMap_cons, hd]
    dsimp only
    rw [List.map_cons, ih (fun x hx => h x (List.mem_cons_of_mem r hx))]

theorem insertionSort_map_formatEpoch (l : List Int)
    (hdom : ∀ x ∈ l, -32768 ≤ x ∧ x ≤ 32767) :
    List.insertionSort (fun a b : String => a ≤ b) (l.map formatEpoch) =
      (List.insertionSort (fun a b : Int => a ≤ b) l).map formatEpoch := by
  apply List.eq_of_perm_of_sorted (r := fun a b : String => a ≤ b)
  · exact (List.perm_insertionSort _ (l.map formatEpoch)).trans
      (List.Perm.map formatEpoch (List.perm_insertionSort _ l)).symm
  · exact List.sorted_insertionSort _ _
  · show List.Pairwise (fun a b : String => a ≤ b)
      ((List.insertionSort (fun a b : Int => a ≤ b) l).map formatEpoch)
    rw [List.pairwise_map]
    have hs : List.Pairwise (fun a b : Int => a ≤ b)
        (List.insertionSort (fun a b : Int => a ≤ b) l) :=
      List.sorted_insertionSort _ l
    refine hs.imp_of_mem ?_
    intro a b ha hb hab
    have hda := hdom a ((List.mem_insertionSort _).mp ha)
    have hdb := hdom b ((List.mem_insertionSort _).mp hb)
    rcases lt_or_eq_of_le hab with hlt | heq
    · exact le_of_lt (formatEpoch_lt (by omega) (by omega) hlt)
    · rw [heq]

/-- Claim C6: for a non-empty STATUS table whose starts are all non-null
int16 epoch days, the `temporalStatusDates` written into the revision
metadata is exactly the decoded distinct `start_epoch_days` values in
ascending date order (the Python string sort coincides with the ascending
epoch order because decoding and rendering is strictly monotone). -/
theorem status_dates_reported_sorted_distinct (t : List Row) (hne : t ≠ [])
    (hrange : ∀ r ∈ t, ∃ d : Int,
      r.start_epoch_days = some d ∧ -32768 ≤ d ∧ d ≤ 32767) :
    ∃ td, get_temporal_data t "STATUS" = some td ∧
      (metadata_update_temporal_coverage "STATUS" td).temporalStatusDates =
        some ((List.insertionSort (fun a b : Int => a ≤ b)
          (uniqueFirst (t.filterMap Row.start_epoch_days))).map formatEpoch) := by
  have hall : ∀ r ∈ t, ∃ d : Int, r.start_epoch_days = some d := by
    intro r hr
    obtain ⟨d, hd, _, _⟩ := hrange r hr
    exact ⟨d, hd⟩
  have hmap := map_start_eq_of_all_some t hall
  have hstat : decodeColumn (uniqueFirst (t.map Row.start_epoch_days)) =
      some ((uniqueFirst (t.filterMap Row.start_epoch_days)).map formatEpoch) := by
    rw [hmap, uniqueFirst_map_some, decodeColumn_map_some]
  have hmin_s : (pyMinOfPair (colMin (t.map Row.start_epoch_days))
      (colMin (t.map Row.stop_epoch_days))).isSome = true := by
    rw [pyMinOfPair_isSome_iff]
    left
    rw [colMin_isSome_iff]
    obtain ⟨r, hr⟩ := List.exists_mem_of_ne_nil t hne
    obtain ⟨d, hd⟩ := hall r hr
    exact ⟨r.start_epoch_days, List.mem_map_of_mem _ hr, by rw [hd]; simp⟩
  have hmax_s : (pyMaxOfPair (colMax (t.map Row.start_epoch_days))
      (colMax (t.map Row.stop_epoch_days))).isSome = true := by
    rw [pyMaxOfPair_isSome_iff]
    left
    rw [colMax_isSome_iff]
    obtain ⟨r, hr⟩ := List.exists_mem_of_ne_nil t hne
    obtain ⟨d, hd⟩ := hall r hr
    exact ⟨r.start_epoch_days, List.mem_map_of_mem _ hr, by rw [hd]; simp⟩
  obtain ⟨mn, hmn⟩ := Option.isSome_iff_exists.mp hmin_s
  obtain ⟨mx, hmx⟩ := Option.isSome_iff_exists.mp hmax_s
  refine ⟨⟨formatEpoch mn, formatEpoch mx,
    some ((uniqueFirst (t.filterMap Row.start_epoch_days)).map formatEpoch)⟩, ?_, ?_⟩
  · unfold get_temporal_data
    rw [if_neg (by decide), hmn, hmx, hstat]
    rfl
  · unfold metadata_update_temporal_coverage
    rw [if_pos rfl]
    show some (List.insertionSort (fun a b : String => a ≤ b)
        ((uniqueFirst (t.filterMap Row.start_epoch_days)).map formatEpoch)) =
      some ((List.insertionSort (fun a b : Int => a ≤ b)
        (uniqueFirst (t.filterMap Row.start_epoch_days))).map formatEpoch)
    rw [insertionSort_map_formatEpoch]
    intro x hx
    obtain ⟨r, hr, hsome⟩ :=
      List.mem_filterMap.mp ((mem_uniqueFirst _ _).mp hx)
    obtain ⟨d, hd, hb1, hb2⟩ := hrange r hr
    rw [hd] at hsome
    have hdx := Option.some.inj hsome
    subst hdx
    exact ⟨hb1, hb2⟩

/-- Witness for claim C6 at a concrete two-row STATUS table with starts 1
and 0. -/
theorem status_dates_reported_sorted_distinct_witness :
    ∃ td, get_temporal_data
        [⟨some "A", some "x", some 1, some 1⟩, ⟨some "B", some "x", some 0, some 0⟩]
        "STATUS" = some td ∧
      (metadata_update_temporal_coverage "STATUS" td).temporalStatusDates =
        some ((List.insertionSort (fun a b : Int => a ≤ b)
          (uniqueFirst (([⟨some "A", some "x", some 1, some 1⟩,
            ⟨some "B", some "x", some 0, some 0⟩] : List Row).filterMap
              Row.start_epoch_days))).map formatEpoch) :=
  status_dates_reported_sorted_distinct
    [⟨some "A", some "x", some 1, some 1⟩, ⟨some "B", some "x", some 0, some 0⟩]
    (by decide) (by decide)

end Microdata
